import Mathlib

/-!
Verification of the gce-gen repository: the resource-URL parser
(pkg/cloud/utils.go) and the generated per-resource adapters (the real GCE
adapter and the in-memory mock produced by the genTypes template in
gen/main.go).

Conventions of the embedding:
* Go strings are Lean String values.  Go operates on bytes; all literals
  involved are ASCII, so byte positions and character positions coincide and
  we model strings by their character lists (String.data).
* Go functions returning (T, error) are modelled as pairs of options, or as
  Except when the source returns exactly one of the two (as ParseResourceURL
  does: every return statement in its body is either (ret, nil) or
  (nil, errNotValid)).
* Go maps are modelled as association lists with the usual lookup, set and
  erase operations; map iteration order is modelled by list order.
* The mutex in the mock adapter serialises access; we model the resulting
  sequential semantics directly.  Contexts (context.Context) are never
  inspected by the modelled code and are omitted.
-/

/-- Modelled from the spec: the meta package of this repository (its Key
model, section 4.1 of the spec) is not under src/.  A Key identifies one
resource instance by name plus an optional zone or region; the constructors
below fix which variant is meant, the unused locality fields stay empty.
Equality is structural (Keys are used as Go map keys and compared with ==
in ResourceID.Equal). -/
structure Key where
  Name : String
  Zone : String
  Region : String
deriving DecidableEq

/-- Modelled from the spec: meta.GlobalKey, a Key with no location. -/
def GlobalKey (name : String) : Key := ⟨name, "", ""⟩

/-- Modelled from the spec: meta.RegionalKey, a Key with a region. -/
def RegionalKey (name region : String) : Key := ⟨name, "", region⟩

/-- Modelled from the spec: meta.ZonalKey, a Key with a zone. -/
def ZonalKey (name zone : String) : Key := ⟨name, zone, ""⟩

/-- ResourceID identifies a GCE resource as parsed from a compute resource
URL (utils.go lines 37-42). -/
structure ResourceID where
  ProjectID : String
  Resource : String
  Key : Option Key
deriving DecidableEq

/-- utils.go line 28: the GA host prefix. -/
def gaPrefix : String := "https://www.googleapis.com/compute/v1/"

/-- utils.go line 29: the alpha host prefix. -/
def alphaPrefix : String := "https://www.googleapis.com/compute/alpha/"

/-- utils.go line 30: the beta host prefix. -/
def betaPrefix : String := "https://www.googleapis.com/compute/beta/"

/-- utils.go line 34: allPrefixes. -/
def allPrefixes : List String := [gaPrefix, alphaPrefix, betaPrefix]

/-- The single error value built at utils.go line 67:
fmt.Errorf("%q is not a valid resource URL", url). -/
def errNotValid (url : String) : String :=
  "\"" ++ url ++ "\" is not a valid resource URL"

/-- Go strings.Split with a one-character separator, on character lists:
the list of (possibly empty) segments between occurrences of c.  Splitting
the empty string yields one empty segment, as in Go. -/
def splitChar (c : Char) : List Char → List (List Char)
  | [] => [[]]
  | a :: rest =>
    match splitChar c rest with
    | [] => if a = c then [[], []] else [[a]]
    | r :: rs => if a = c then [] :: r :: rs else (a :: r) :: rs

/-- Inverse of splitChar: joins segments with the separator character
(Go strings.Join with a one-character separator). -/
def joinChar (c : Char) : List (List Char) → List Char
  | [] => []
  | [l] => l
  | l :: ls => l ++ c :: joinChar c ls

/-- The prefix-stripping stage of ParseResourceURL (utils.go lines 70-78):
find the first known prefix that the url starts with; the loop body also
guards len(url) < len(prefix) and fails (returns none here) in that case,
otherwise the prefix is removed. -/
def stripPrefix (url : String) : Option (List Char) :=
  match allPrefixes.find? (fun p => p.data.isPrefixOf url.data) with
  | some p =>
    if url.data.length < p.data.length then none
    else some (url.data.drop p.data.length)
  | none => some url.data

/-- The shape-matching stage of ParseResourceURL (utils.go lines 80-133),
operating on the segments of the prefix-stripped path.  The match on the
list structure realises the same decision tree as the source: length < 2 or
first segment not "projects" rejects; length 2 is the bare projects shape;
length 3 rejects; length 4 branches on regions/zones; length 5 and more
branches on global/regions/zones with the exact length checks of the
source (global wants 5, regions and zones want 6). -/
def parseParts (url : String) (parts : List (List Char)) :
    Except String ResourceID :=
  let err : Except String ResourceID := .error (errNotValid url)
  match parts with
  | p0 :: p1 :: rest =>
    if p0 = "projects".data then
      match rest with
      | [] => .ok ⟨String.mk p1, "projects", none⟩
      | [_] => err
      | [p2, p3] =>
        if p2 = "regions".data then
          .ok ⟨String.mk p1, "regions", some (GlobalKey (String.mk p3))⟩
        else if p2 = "zones".data then
          .ok ⟨String.mk p1, "zones", some (GlobalKey (String.mk p3))⟩
        else err
      | p2 :: p3 :: p4 :: restTail =>
        if p2 = "global".data then
          match restTail with
          | [] => .ok ⟨String.mk p1, String.mk p3, some (GlobalKey (String.mk p4))⟩
          | _ => err
        else if p2 = "regions".data then
          match restTail with
          | [p5] => .ok ⟨String.mk p1, String.mk p4,
              some (RegionalKey (String.mk p5) (String.mk p3))⟩
          | _ => err
        else if p2 = "zones".data then
          match restTail with
          | [p5] => .ok ⟨String.mk p1, String.mk p4,
              some (ZonalKey (String.mk p5) (String.mk p3))⟩
          | _ => err
        else err
    else err
  | _ => err

/-- ParseResourceURL (utils.go lines 66-134): strip a known host prefix if
present, split the rest on "/", and match the six accepted shapes.  Every
Go return statement pairs a nil ResourceID with errNotValid or a non-nil
ResourceID with a nil error, which the Except codomain reflects. -/
def ParseResourceURL (url : String) : Except String ResourceID :=
  match stripPrefix url with
  | none => .error (errNotValid url)
  | some cs => parseParts url (splitChar '/' cs)

-- Sanity checks against the vectors of utils_test.go.
example :
    ParseResourceURL "projects/some-gce-project" =
      .ok ⟨"some-gce-project", "projects", none⟩ := by rfl

example :
    ParseResourceURL "projects/some-gce-project/regions/us-central1" =
      .ok ⟨"some-gce-project", "regions", some (GlobalKey "us-central1")⟩ := by rfl

example :
    ParseResourceURL "projects/some-gce-project/zones/us-central1-b" =
      .ok ⟨"some-gce-project", "zones", some (GlobalKey "us-central1-b")⟩ := by rfl

example :
    ParseResourceURL "projects/p/global/operations/op-1" =
      .ok ⟨"p", "operations", some (GlobalKey "op-1")⟩ := by rfl

example :
    ParseResourceURL
        "https://www.googleapis.com/compute/alpha/projects/some-gce-project/regions/us-central1/addresses/my-address" =
      .ok ⟨"some-gce-project", "addresses",
        some (RegionalKey "my-address" "us-central1")⟩ := by rfl

example :
    ParseResourceURL
        "https://www.googleapis.com/compute/v1/projects/some-gce-project/zones/us-central1-c/instances/instance-1" =
      .ok ⟨"some-gce-project", "instances",
        some (ZonalKey "instance-1" "us-central1-c")⟩ := by rfl

example : ParseResourceURL "" = .error (errNotValid "") := by rfl

example : ParseResourceURL "/" = .error (errNotValid "/") := by rfl

example : ParseResourceURL "/a/b/c/d/e/f" = .error (errNotValid "/a/b/c/d/e/f") := by rfl

example :
    ParseResourceURL "projects/some-gce-project/global" =
      .error (errNotValid "projects/some-gce-project/global") := by rfl

example :
    ParseResourceURL "projects/p/global/foo/bar/baz" =
      .error (errNotValid "projects/p/global/foo/bar/baz") := by rfl

example :
    ParseResourceURL "projects/p/zones/us-central1-c/res" =
      .error (errNotValid "projects/p/zones/us-central1-c/res") := by rfl

example :
    ParseResourceURL "projects/p/zones/us-central1-c/res/name/extra" =
      .error (errNotValid "projects/p/zones/us-central1-c/res/name/extra") := by rfl

example :
    ParseResourceURL
        "https://www.googleapis.com/compute/gamma/projects/p/global/addresses/name" =
      .error (errNotValid
        "https://www.googleapis.com/compute/gamma/projects/p/global/addresses/name") := by rfl

/-! ### Lemmas about splitChar and joinChar -/

theorem splitChar_ne_nil (c : Char) (l : List Char) : splitChar c l ≠ [] := by
  induction l with
  | nil => simp [splitChar]
  | cons a rest ih =>
    simp only [splitChar]
    cases h : splitChar c rest with
    | nil => exact absurd h ih
    | cons r rs =>
      by_cases hac : a = c <;> simp [hac]

theorem splitChar_cons_of_rec {c a : Char} {l : List Char} {r : List Char}
    {rs : List (List Char)} (h : splitChar c l = r :: rs) :
    splitChar c (a :: l) =
      if a = c then [] :: r :: rs else (a :: r) :: rs := by
  simp only [splitChar, h]

theorem splitChar_no_sep {c : Char} {l : List Char} (h : c ∉ l) :
    splitChar c l = [l] := by
  induction l with
  | nil => rfl
  | cons a rest ih =>
    have hrest : c ∉ rest := fun hm => h (List.mem_cons_of_mem _ hm)
    have hac : a ≠ c := fun hac => h (hac ▸ List.mem_cons_self a rest)
    rw [splitChar_cons_of_rec (ih hrest), if_neg hac]

theorem splitChar_append {c : Char} {l₁ l₂ : List Char} (h : c ∉ l₁) :
    splitChar c (l₁ ++ c :: l₂) = l₁ :: splitChar c l₂ := by
  induction l₁ with
  | nil =>
    cases hs : splitChar c l₂ with
    | nil => exact absurd hs (splitChar_ne_nil c l₂)
    | cons r rs => simp [splitChar_cons_of_rec hs]
  | cons a rest ih =>
    have hrest : c ∉ rest := fun hm => h (List.mem_cons_of_mem _ hm)
    have hac : a ≠ c := fun hac => h (hac ▸ List.mem_cons_self a rest)
    have step := ih hrest
    cases hs : splitChar c (rest ++ c :: l₂) with
    | nil => exact absurd hs (splitChar_ne_nil c _)
    | cons r rs =>
      rw [hs] at step
      injection step with h1 h2
      rw [List.cons_append, splitChar_cons_of_rec hs, if_neg hac, h1, h2]

theorem splitChar_joinChar {c : Char} {ls : List (List Char)}
    (hne : ls ≠ []) (h : ∀ l ∈ ls, c ∉ l) :
    splitChar c (joinChar c ls) = ls := by
  induction ls with
  | nil => exact absurd rfl hne
  | cons l more ih =>
    cases more with
    | nil =>
      simp only [joinChar]
      exact splitChar_no_sep (h l (List.mem_cons_self _ _))
    | cons l2 rest =>
      have hjoin : joinChar c (l :: l2 :: rest) = l ++ c :: joinChar c (l2 :: rest) := rfl
      rw [hjoin, splitChar_append (h l (List.mem_cons_self _ _))]
      rw [ih (by simp) (fun q hq => h q (List.mem_cons_of_mem _ hq))]

theorem joinChar_splitChar (c : Char) (l : List Char) :
    joinChar c (splitChar c l) = l := by
  induction l with
  | nil => rfl
  | cons a rest ih =>
    cases hs : splitChar c rest with
    | nil => exact absurd hs (splitChar_ne_nil c rest)
    | cons r rs =>
      rw [hs] at ih
      rw [splitChar_cons_of_rec hs]
      by_cases hac : a = c
      · rw [if_pos hac, hac]
        show [] ++ c :: joinChar c (r :: rs) = c :: rest
        rw [List.nil_append, ih]
      · rw [if_neg hac]
        cases rs with
        | nil =>
          show a :: r = a :: rest
          simp only [joinChar] at ih
          rw [ih]
        | cons r2 rs2 =>
          show (a :: r) ++ c :: joinChar c (r2 :: rs2) = a :: rest
          simp only [joinChar] at ih
          rw [List.cons_append, ih]

theorem not_mem_of_mem_splitChar {c : Char} {l : List Char} :
    ∀ part ∈ splitChar c l, c ∉ part := by
  induction l with
  | nil =>
    intro part h
    simp [splitChar] at h
    subst h; simp
  | cons a rest ih =>
    intro part h
    cases hs : splitChar c rest with
    | nil => exact absurd hs (splitChar_ne_nil c rest)
    | cons r rs =>
      rw [splitChar_cons_of_rec hs] at h
      by_cases hac : a = c
      · rw [if_pos hac] at h
        rcases List.mem_cons.mp h with h1 | h2
        · subst h1; simp
        · exact ih part (by rw [hs]; exact h2)
      · rw [if_neg hac] at h
        rcases List.mem_cons.mp h with h1 | h2
        · subst h1
          intro hmem
          rcases List.mem_cons.mp hmem with h3 | h4
          · exact hac h3.symm
          · exact ih r (by rw [hs]; exact List.mem_cons_self r rs) h4
        · exact ih part (by rw [hs]; exact List.mem_cons_of_mem _ h2)

/-! ### The prefix-stripping stage -/

/-- Claim C9: the error branch inside the prefix-stripping loop of
ParseResourceURL (utils.go lines 72-74, the stripPrefix none branch of this
embedding) is unreachable: whenever one of the known prefixes is a prefix
of the input, the input is at least as long as that prefix, so stripping
always succeeds and every rejection of ParseResourceURL is produced by the
subsequent shape matching on the split segments. -/
theorem stripPrefix_never_fails (url : String) :
    ∃ cs, stripPrefix url = some cs ∧
      ParseResourceURL url = parseParts url (splitChar '/' cs) := by
  unfold stripPrefix
  cases hf : allPrefixes.find? (fun p => p.data.isPrefixOf url.data) with
  | none =>
    refine ⟨url.data, rfl, ?_⟩
    unfold ParseResourceURL stripPrefix
    rw [hf]
  | some p =>
    have hfs : p.data.isPrefixOf url.data = true := by
      have h2 := List.find?_some hf
      exact h2
    have hpref : p.data <+: url.data := List.isPrefixOf_iff_prefix.mp hfs
    have hlen : ¬ url.data.length < p.data.length :=
      Nat.not_lt.mpr hpref.length_le
    have hlen2 : ¬ url.length < p.length := hlen
    refine ⟨url.data.drop p.data.length, ?_, ?_⟩
    · simp [hlen, hlen2]
    · unfold ParseResourceURL stripPrefix
      rw [hf]; simp [hlen, hlen2]

/-! ### The six accepted shapes of section 4.2 -/

/-- A valid resource locator shape, as enumerated in the doc comment of
ParseResourceURL and section 4.2 of the spec: the six accepted segment
patterns with their variable segments. -/
inductive ShapeInput where
  | projOnly (proj : String)
  | regionsColl (proj region : String)
  | zonesColl (proj zone : String)
  | globalRes (proj type name : String)
  | regionalRes (proj region type name : String)
  | zonalRes (proj zone type name : String)

/-- The path segments encoded by a shape. -/
def ShapeInput.segs : ShapeInput → List String
  | .projOnly proj => ["projects", proj]
  | .regionsColl proj region => ["projects", proj, "regions", region]
  | .zonesColl proj zone => ["projects", proj, "zones", zone]
  | .globalRes proj type name => ["projects", proj, "global", type, name]
  | .regionalRes proj region type name =>
      ["projects", proj, "regions", region, type, name]
  | .zonalRes proj zone type name =>
      ["projects", proj, "zones", zone, type, name]

/-- A shape instance is well formed when none of its segments contains the
path separator (otherwise the rendered string would encode different
segments). -/
def ShapeInput.wf (s : ShapeInput) : Prop := ∀ q ∈ s.segs, '/' ∉ q.data

instance (s : ShapeInput) : Decidable s.wf := by
  unfold ShapeInput.wf; infer_instance

/-- The locator string encoded by a shape: its segments joined by "/". -/
def ShapeInput.render (s : ShapeInput) : String :=
  String.mk (joinChar '/' (s.segs.map String.data))

/-- The (ProjectID, Resource, Key) triple a shape encodes, per section 4.2
of the spec and the claim text. -/
def ShapeInput.rid : ShapeInput → ResourceID
  | .projOnly proj => ⟨proj, "projects", none⟩
  | .regionsColl proj region => ⟨proj, "regions", some (GlobalKey region)⟩
  | .zonesColl proj zone => ⟨proj, "zones", some (GlobalKey zone)⟩
  | .globalRes proj type name => ⟨proj, type, some (GlobalKey name)⟩
  | .regionalRes proj region type name =>
      ⟨proj, type, some (RegionalKey name region)⟩
  | .zonalRes proj zone type name => ⟨proj, type, some (ZonalKey name zone)⟩

/-- A string matches the accepted grammar when it is a well-formed shape,
optionally preceded by one of the three known host prefixes. -/
def MatchesShape (url : String) : Prop :=
  ∃ pre s, (pre = "" ∨ pre ∈ allPrefixes) ∧ ShapeInput.wf s ∧
    url = pre ++ ShapeInput.render s

/-! ### Prefix discrimination lemmas -/

theorem isPrefixOf_eq_false_of_head {a b : Char} {l₁ l₂ : List Char}
    (h₁ : l₁.head? = some a) (h₂ : l₂.head? = some b) (hne : a ≠ b) :
    l₁.isPrefixOf l₂ = false := by
  cases l₁ with
  | nil => simp at h₁
  | cons x xs =>
    cases l₂ with
    | nil => simp at h₂
    | cons y ys =>
      simp only [List.head?_cons, Option.some.injEq] at h₁ h₂
      subst h₁; subst h₂
      simp [List.isPrefixOf, hne]

theorem isPrefixOf_append_eq_false {A B : List Char} (X : List Char)
    (h1 : A.isPrefixOf B = false) (h2 : B.isPrefixOf A = false) :
    A.isPrefixOf (B ++ X) = false := by
  cases hAB : A.isPrefixOf (B ++ X) with
  | false => rfl
  | true =>
    have hp : A <+: B ++ X := List.isPrefixOf_iff_prefix.mp hAB
    have hb : B <+: B ++ X := List.prefix_append _ _
    rcases List.prefix_or_prefix_of_prefix hp hb with h | h
    · rw [List.isPrefixOf_iff_prefix.mpr h] at h1
      exact absurd h1 (by decide)
    · rw [List.isPrefixOf_iff_prefix.mpr h] at h2
      exact absurd h2 (by decide)

theorem find?_known_prefixes_none {X : List Char} (hhead : X.head? = some 'p') :
    allPrefixes.find? (fun p => p.data.isPrefixOf X) = none := by
  have hga : gaPrefix.data.isPrefixOf X = false :=
    isPrefixOf_eq_false_of_head rfl hhead (by decide)
  have halpha : alphaPrefix.data.isPrefixOf X = false :=
    isPrefixOf_eq_false_of_head rfl hhead (by decide)
  have hbeta : betaPrefix.data.isPrefixOf X = false :=
    isPrefixOf_eq_false_of_head rfl hhead (by decide)
  simp [allPrefixes, List.find?, hga, halpha, hbeta]

theorem find?_gaPrefix_append (X : List Char) :
    allPrefixes.find? (fun p => p.data.isPrefixOf (gaPrefix.data ++ X)) =
      some gaPrefix := by
  have h : gaPrefix.data.isPrefixOf (gaPrefix.data ++ X) = true :=
    List.isPrefixOf_iff_prefix.mpr (List.prefix_append _ _)
  simp [allPrefixes, List.find?, h]

theorem find?_alphaPrefix_append (X : List Char) :
    allPrefixes.find? (fun p => p.data.isPrefixOf (alphaPrefix.data ++ X)) =
      some alphaPrefix := by
  have hga : gaPrefix.data.isPrefixOf (alphaPrefix.data ++ X) = false :=
    isPrefixOf_append_eq_false X (by decide) (by decide)
  have halpha : alphaPrefix.data.isPrefixOf (alphaPrefix.data ++ X) = true :=
    List.isPrefixOf_iff_prefix.mpr (List.prefix_append _ _)
  simp [allPrefixes, List.find?, hga, halpha]

theorem find?_betaPrefix_append (X : List Char) :
    allPrefixes.find? (fun p => p.data.isPrefixOf (betaPrefix.data ++ X)) =
      some betaPrefix := by
  have hga : gaPrefix.data.isPrefixOf (betaPrefix.data ++ X) = false :=
    isPrefixOf_append_eq_false X (by decide) (by decide)
  have halpha : alphaPrefix.data.isPrefixOf (betaPrefix.data ++ X) = false :=
    isPrefixOf_append_eq_false X (by decide) (by decide)
  have hbeta : betaPrefix.data.isPrefixOf (betaPrefix.data ++ X) = true :=
    List.isPrefixOf_iff_prefix.mpr (List.prefix_append _ _)
  simp [allPrefixes, List.find?, hga, halpha, hbeta]

theorem ParseResourceURL_eq_of_stripPrefix {url : String} {cs : List Char}
    (h : stripPrefix url = some cs) :
    ParseResourceURL url = parseParts url (splitChar '/' cs) := by
  unfold ParseResourceURL; rw [h]

theorem stripPrefix_of_head_p {url : String} (h : url.data.head? = some 'p') :
    stripPrefix url = some url.data := by
  unfold stripPrefix
  rw [find?_known_prefixes_none h]

theorem stripPrefix_append_known {pre : String} (X : List Char)
    (hmem : pre ∈ allPrefixes) {url : String}
    (hurl : url.data = pre.data ++ X) : stripPrefix url = some X := by
  simp only [allPrefixes, List.mem_cons, List.not_mem_nil, or_false] at hmem
  rcases hmem with rfl | rfl | rfl
  · unfold stripPrefix
    rw [hurl, find?_gaPrefix_append X]
    show (if (gaPrefix.data ++ X).length < gaPrefix.data.length then none
      else some (List.drop gaPrefix.data.length (gaPrefix.data ++ X))) = some X
    rw [if_neg (by rw [List.length_append]; omega), List.drop_left]
  · unfold stripPrefix
    rw [hurl, find?_alphaPrefix_append X]
    show (if (alphaPrefix.data ++ X).length < alphaPrefix.data.length then none
      else some (List.drop alphaPrefix.data.length (alphaPrefix.data ++ X))) = some X
    rw [if_neg (by rw [List.length_append]; omega), List.drop_left]
  · unfold stripPrefix
    rw [hurl, find?_betaPrefix_append X]
    show (if (betaPrefix.data ++ X).length < betaPrefix.data.length then none
      else some (List.drop betaPrefix.data.length (betaPrefix.data ++ X))) = some X
    rw [if_neg (by rw [List.length_append]; omega), List.drop_left]

/-- Claim C1: for every input built from one of the six accepted shapes,
with or without one of the three known host prefixes, ParseResourceURL
returns exactly the ResourceID encoding the (ProjectID, Resource, Key)
triple of the shape (Key absent for the bare projects shape, GlobalKey for
the four-segment and global shapes, RegionalKey/ZonalKey carrying the
location for the six-segment shapes) and no error. -/
theorem ParseResourceURL_ok_on_shapes (pre : String) (s : ShapeInput)
    (hpre : pre = "" ∨ pre ∈ allPrefixes) (hwf : s.wf) :
    ParseResourceURL (pre ++ s.render) = .ok s.rid := by
  have hne : s.segs.map String.data ≠ [] := by
    cases s <;> simp [ShapeInput.segs]
  have hnosl : ∀ l ∈ s.segs.map String.data, '/' ∉ l := by
    intro l hl
    obtain ⟨q, hq, rfl⟩ := List.mem_map.mp hl
    exact hwf q hq
  have hsplit :
      splitChar '/' (joinChar '/' (s.segs.map String.data)) =
        s.segs.map String.data := splitChar_joinChar hne hnosl
  have hhead : (joinChar '/' (s.segs.map String.data)).head? = some 'p' := by
    cases s <;> rfl
  have hparse : ∀ u, parseParts u (s.segs.map String.data) = .ok s.rid := by
    intro u; cases s <;> rfl
  rcases hpre with rfl | hmem
  · have hurl : ("" ++ s.render).data = joinChar '/' (s.segs.map String.data) := by
      rw [String.data_append]
      show "".data ++ (String.mk (joinChar '/' (s.segs.map String.data))).data = _
      rw [show "".data = [] from rfl, List.nil_append]
    have hstrip := @stripPrefix_of_head_p ("" ++ s.render)
      (by rw [hurl]; exact hhead)
    rw [ParseResourceURL_eq_of_stripPrefix hstrip, hurl, hsplit]
    exact hparse _
  · have hurl : (pre ++ s.render).data =
        pre.data ++ joinChar '/' (s.segs.map String.data) := by
      rw [String.data_append]; rfl
    have hstrip := stripPrefix_append_known _ hmem hurl
    rw [ParseResourceURL_eq_of_stripPrefix hstrip, hsplit]
    exact hparse _

/-! ### Completeness of rejection (C2) -/

theorem render_data (s : ShapeInput) :
    (ShapeInput.render s).data = joinChar '/' (s.segs.map String.data) := rfl

theorem render_data_ne_nil (s : ShapeInput) : (ShapeInput.render s).data ≠ [] := by
  rw [render_data]
  cases s <;>
    (intro hc
     have hlen := congrArg List.length hc
     simp only [ShapeInput.segs, List.map, joinChar, List.length_append,
       List.length_cons, List.length_nil] at hlen
     omega)

theorem parseParts_error_eq {url : String} {parts : List (List Char)} {m : String}
    (h : parseParts url parts = .error m) : m = errNotValid url := by
  unfold parseParts at h
  repeat' split at h
  all_goals simp_all

theorem ParseResourceURL_error_eq {url m : String}
    (h : ParseResourceURL url = .error m) : m = errNotValid url := by
  obtain ⟨cs, _, heq⟩ := stripPrefix_never_fails url
  rw [heq] at h
  exact parseParts_error_eq h

theorem parseParts_ok_shape {url : String} {parts : List (List Char)}
    {r : ResourceID} (h : parseParts url parts = .ok r) :
    ∃ s : ShapeInput, parts = s.segs.map String.data := by
  match parts with
  | [] => simp [parseParts] at h
  | [_] => simp [parseParts] at h
  | p0 :: p1 :: rest =>
    by_cases h0 : p0 = "projects".data
    case neg => simp [parseParts, h0] at h
    match rest with
    | [] => exact ⟨.projOnly (String.mk p1), by simp [ShapeInput.segs, h0]⟩
    | [_] => simp [parseParts, h0] at h
    | [p2, p3] =>
      by_cases h2 : p2 = "regions".data
      · exact ⟨.regionsColl (String.mk p1) (String.mk p3),
          by simp [ShapeInput.segs, h0, h2]⟩
      by_cases h2z : p2 = "zones".data
      · exact ⟨.zonesColl (String.mk p1) (String.mk p3),
          by simp [ShapeInput.segs, h0, h2z]⟩
      simp [parseParts, h0, h2, h2z] at h
    | p2 :: p3 :: p4 :: restTail =>
      by_cases h2 : p2 = "global".data
      · match restTail with
        | [] => exact ⟨.globalRes (String.mk p1) (String.mk p3) (String.mk p4),
            by simp [ShapeInput.segs, h0, h2]⟩
        | q :: qs => simp [parseParts, h0, h2] at h
      by_cases h2r : p2 = "regions".data
      · match restTail with
        | [] => simp [parseParts, h0, h2, h2r] at h
        | [p5] => exact ⟨.regionalRes (String.mk p1) (String.mk p3) (String.mk p4)
              (String.mk p5), by simp [ShapeInput.segs, h0, h2r]⟩
        | _ :: _ :: _ => simp [parseParts, h0, h2, h2r] at h
      by_cases h2z : p2 = "zones".data
      · match restTail with
        | [] => simp [parseParts, h0, h2, h2r, h2z] at h
        | [p5] => exact ⟨.zonalRes (String.mk p1) (String.mk p3) (String.mk p4)
              (String.mk p5), by simp [ShapeInput.segs, h0, h2z]⟩
        | _ :: _ :: _ => simp [parseParts, h0, h2, h2r, h2z] at h
      simp [parseParts, h0, h2, h2r, h2z] at h

theorem stripPrefix_inv {url : String} {cs : List Char}
    (h : stripPrefix url = some cs) :
    url.data = cs ∨ ∃ p ∈ allPrefixes, url.data = p.data ++ cs := by
  cases hf : allPrefixes.find? (fun p => p.data.isPrefixOf url.data) with
  | none =>
    have h2 : stripPrefix url = some url.data := by
      unfold stripPrefix; rw [hf]
    rw [h2] at h
    exact Or.inl (Option.some.inj h)
  | some p =>
    have hfs : p.data.isPrefixOf url.data = true := by
      have h2 := List.find?_some hf
      exact h2
    have hpref : p.data <+: url.data := List.isPrefixOf_iff_prefix.mp hfs
    have hlen : ¬ url.data.length < p.data.length :=
      Nat.not_lt.mpr hpref.length_le
    have h2 : stripPrefix url = some (url.data.drop p.data.length) := by
      unfold stripPrefix
      rw [hf]
      show (if url.data.length < p.data.length then none
        else some (url.data.drop p.data.length)) = _
      rw [if_neg hlen]
    rw [h2] at h
    have h := Option.some.inj h
    obtain ⟨t, ht⟩ := hpref
    right
    refine ⟨p, List.mem_of_find?_eq_some hf, ?_⟩
    rw [← h, ← ht, List.drop_left]

theorem ParseResourceURL_ok_matches {url : String} {r : ResourceID}
    (h : ParseResourceURL url = .ok r) : MatchesShape url := by
  obtain ⟨cs, hstrip, heq⟩ := stripPrefix_never_fails url
  rw [heq] at h
  obtain ⟨s, hparts⟩ := parseParts_ok_shape h
  have hwf : s.wf := by
    intro q hq
    have hmem : q.data ∈ s.segs.map String.data := List.mem_map_of_mem _ hq
    rw [← hparts] at hmem
    exact not_mem_of_mem_splitChar q.data hmem
  have hcs : cs = (ShapeInput.render s).data := by
    rw [render_data, ← hparts, joinChar_splitChar]
  rcases stripPrefix_inv hstrip with hurl | ⟨p, hmem, hurl⟩
  · refine ⟨"", s, Or.inl rfl, hwf, String.ext ?_⟩
    rw [String.data_append, hurl, hcs]
    rfl
  · refine ⟨p, s, Or.inr hmem, hwf, String.ext ?_⟩
    rw [String.data_append, hurl, hcs]

/-- Claim C2: every input string that does not match any of the six
accepted shapes (with or without a known host prefix) is rejected by
ParseResourceURL with the single error value naming the offending input.
In the Go source every rejecting return statement pairs this error with a
nil ResourceID, which the Except codomain of the embedding reflects: no
partial result accompanies the error. -/
theorem ParseResourceURL_rejects_nonshapes (url : String)
    (h : ¬ MatchesShape url) :
    ParseResourceURL url = .error (errNotValid url) := by
  cases he : ParseResourceURL url with
  | ok r => exact absurd (ParseResourceURL_ok_matches he) h
  | error m => rw [ParseResourceURL_error_eq he]

/-- Witness for C2: the empty string matches no shape and is rejected. -/
theorem ParseResourceURL_rejects_nonshapes_witness :
    ParseResourceURL "" = .error (errNotValid "") :=
  ParseResourceURL_rejects_nonshapes "" (by
    rintro ⟨pre, s, hpre, hwf, heq⟩
    have hdata := congrArg String.data heq
    rw [String.data_append] at hdata
    have hnil : (ShapeInput.render s).data = [] :=
      (List.append_eq_nil.mp hdata.symm).2
    exact render_data_ne_nil s hnil)

/-- Witness for C1: the zonal example of the spec, behind the GA prefix. -/
theorem ParseResourceURL_ok_on_shapes_witness :
    ParseResourceURL
        (gaPrefix ++ (ShapeInput.zonalRes "p1" "us-central1-b" "instances" "vm-1").render) =
      .ok ⟨"p1", "instances", some (ZonalKey "vm-1" "us-central1-b")⟩ :=
  ParseResourceURL_ok_on_shapes gaPrefix
    (ShapeInput.zonalRes "p1" "us-central1-b" "instances" "vm-1")
    (Or.inr (by simp [allPrefixes])) (by decide)

/-! ### The generated mock adapter (genTypes template, gen/main.go)

The genTypes template instantiates, for every service, a mock struct with
an object store, per-key injected-error maps, an optional list error and
optional interception hooks (template lines 199-364).  The embedding is
generic in the object type, exactly as the template is generic in
FQObjectType, and carries the MockWrapType name as a parameter since the
template bakes it into the error messages.  Go maps become association
lists; the per-instance mutex serialises operations, so the sequential
semantics below is the per-operation behavior.  Hooks receive the mock
itself in Go; here they receive the mock state (the part of the mock the
generated code itself ever reads or writes). -/

/-- A Go error value as the mock and adapters produce or store them:
a structured googleapi.Error with HTTP code and message, a plain
fmt.Errorf string error, or any other injected error value (opaque tag). -/
inductive GoError where
  | googleapi (code : Nat) (message : String)
  | errorString (message : String)
  | other (tag : Nat)
deriving DecidableEq

/-- Modelled from the spec: the rendering of a meta.Key by the fmt package
(%v on a Key value, neither of which is under src/): the default Go struct
formatting listing the fields in declaration order. -/
def keyFmt (k : Key) : String :=
  "\x7b" ++ k.Name ++ " " ++ k.Zone ++ " " ++ k.Region ++ "\x7d"

/-- Go map read m[k] (association-list lookup). -/
def mapLookup {β : Type} : List (Key × β) → Key → Option β
  | [], _ => none
  | (k, v) :: rest, key => if k = key then some v else mapLookup rest key

/-- Go map write m[k] = v. -/
def mapSet {β : Type} : List (Key × β) → Key → β → List (Key × β)
  | [], key, v => [(key, v)]
  | (k, w) :: rest, key, v =>
    if k = key then (key, v) :: rest else (k, w) :: mapSet rest key v

/-- Go delete(m, k). -/
def mapErase {β : Type} : List (Key × β) → Key → List (Key × β)
  | [], _ => []
  | (k, w) :: rest, key =>
    if k = key then mapErase rest key else (k, w) :: mapErase rest key

theorem mapLookup_mapSet_self {β : Type} (l : List (Key × β)) (k : Key) (v : β) :
    mapLookup (mapSet l k v) k = some v := by
  induction l with
  | nil => simp [mapSet, mapLookup]
  | cons kv rest ih =>
    obtain ⟨k2, w⟩ := kv
    by_cases hk : k2 = k
    · simp [mapSet, hk, mapLookup]
    · simp [mapSet, hk, mapLookup, ih]

theorem mapLookup_mapErase_self {β : Type} (l : List (Key × β)) (k : Key) :
    mapLookup (mapErase l k) k = none := by
  induction l with
  | nil => simp [mapErase, mapLookup]
  | cons kv rest ih =>
    obtain ⟨k2, w⟩ := kv
    by_cases hk : k2 = k
    · simp [mapErase, hk, ih]
    · simp [mapErase, hk, mapLookup, ih]

/-- The mutable state of a generated mock: the object store and the
injected-error maps (template lines 211-222). -/
structure MockState (α : Type) where
  Objects : List (Key × α)
  GetError : List (Key × GoError)
  ListError : Option GoError
  InsertError : List (Key × GoError)
  DeleteError : List (Key × GoError)

/-- The optional interception hooks of a generated mock (template lines
224-232).  A hook returns intercept = true to replace the normal mock
flow with its own result, or false to let the default logic run. -/
structure MockHooks (α : Type) where
  GetHook : Option (MockState α → Key → Bool × Option α × Option GoError)
  ListHook : Option (MockState α → Bool × List α × Option GoError)
  InsertHook : Option (MockState α → Key → α → Bool × Option GoError)
  DeleteHook : Option (MockState α → Key → Bool × Option GoError)

/-- New{{.MockWrapType}} (template lines 200-208): empty store, empty
error maps, no hooks. -/
def NewMock (α : Type) : MockState α := ⟨[], [], none, [], []⟩

/-- The hook fields of a fresh mock are all nil. -/
def NoHooks (α : Type) : MockHooks α := ⟨none, none, none, none⟩

/-- The 404 error built by mock Get and Delete (template lines 258-261 and
341-344): googleapi.Error with StatusNotFound and a message embedding the
mock type name and the key. -/
def notFoundErr (typeName : String) (k : Key) : GoError :=
  .googleapi 404 (typeName ++ " " ++ keyFmt k ++ " not found")

/-- The 409 error built by mock Insert (template lines 316-319):
googleapi.Error with StatusConflict and a message embedding the mock type
name and the key. -/
def existsErr (typeName : String) (k : Key) : GoError :=
  .googleapi 409 (typeName ++ " " ++ keyFmt k ++ " exists")

/-- The default (post-hook) logic of mock Get (template lines 249-261):
injected error wins, then the stored object, then NotFound. -/
def mockGetDefault {α : Type} (typeName : String) (m : MockState α)
    (k : Key) : Option α × Option GoError :=
  match mapLookup m.GetError k with
  | some e => (none, some e)
  | none =>
    match mapLookup m.Objects k with
    | some obj => (some obj, none)
    | none => (none, some (notFoundErr typeName k))

/-- Mock Get (template lines 242-262): the hook gets first refusal. -/
def mockGet {α : Type} (typeName : String) (hooks : MockHooks α)
    (m : MockState α) (k : Key) : Option α × Option GoError :=
  match hooks.GetHook with
  | some hook =>
    match hook m k with
    | (true, obj, e) => (obj, e)
    | (false, _, _) => mockGetDefault typeName m k
  | none => mockGetDefault typeName m k

/-- Whether a resource type is global, regional or zonal; selects which
List signature and filter the template instantiates. -/
inductive Locality where
  | global
  | regional
  | zonal
deriving DecidableEq

/-- The per-locality filter of mock List (template lines 284-294): global
types keep every entry, regional/zonal types keep entries whose key has
the requested region/zone. -/
def keyInScope : Locality → Key → String → Bool
  | .global, _, _ => true
  | .regional, k, region => k.Region = region
  | .zonal, k, zone => k.Zone = zone

/-- The default (post-hook) logic of mock List (template lines 277-298):
the injected list error wins, otherwise all stored objects passing the
locality filter, in store order. -/
def mockListDefault {α : Type} (loc : Locality) (m : MockState α)
    (scope : String) : List α × Option GoError :=
  match m.ListError with
  | some e => ([], some e)
  | none =>
    ((m.Objects.filter (fun kv => keyInScope loc kv.1 scope)).map Prod.snd, none)

/-- Mock List (template lines 264-299): the hook gets first refusal. -/
def mockList {α : Type} (loc : Locality)
    (hooks : MockHooks α) (m : MockState α) (scope : String) :
    List α × Option GoError :=
  match hooks.ListHook with
  | some hook =>
    match hook m with
    | (true, objs, e) => (objs, e)
    | (false, _, _) => mockListDefault loc m scope
  | none => mockListDefault loc m scope

/-- The default (post-hook) logic of mock Insert (template lines 309-323):
injected error wins, then AlreadyExists if the key is present, otherwise
the object is stored under the key as given. -/
def mockInsertDefault {α : Type} (typeName : String) (m : MockState α)
    (k : Key) (obj : α) : MockState α × Option GoError :=
  match mapLookup m.InsertError k with
  | some e => (m, some e)
  | none =>
    if (mapLookup m.Objects k).isSome then (m, some (existsErr typeName k))
    else ({ m with Objects := mapSet m.Objects k obj }, none)

/-- Mock Insert (template lines 302-324): the hook gets first refusal; an
intercepting hook leaves the state as is and returns its error. -/
def mockInsert {α : Type} (typeName : String) (hooks : MockHooks α)
    (m : MockState α) (k : Key) (obj : α) : MockState α × Option GoError :=
  match hooks.InsertHook with
  | some hook =>
    match hook m k obj with
    | (true, e) => (m, e)
    | (false, _) => mockInsertDefault typeName m k obj
  | none => mockInsertDefault typeName m k obj

/-- The default (post-hook) logic of mock Delete (template lines 334-348):
injected error wins, then NotFound if the key is absent, otherwise the
entry is removed. -/
def mockDeleteDefault {α : Type} (typeName : String) (m : MockState α)
    (k : Key) : MockState α × Option GoError :=
  match mapLookup m.DeleteError k with
  | some e => (m, some e)
  | none =>
    if (mapLookup m.Objects k).isSome then
      ({ m with Objects := mapErase m.Objects k }, none)
    else (m, some (notFoundErr typeName k))

/-- Mock Delete (template lines 327-349): the hook gets first refusal. -/
def mockDelete {α : Type} (typeName : String) (hooks : MockHooks α)
    (m : MockState α) (k : Key) : MockState α × Option GoError :=
  match hooks.DeleteHook with
  | some hook =>
    match hook m k with
    | (true, e) => (m, e)
    | (false, _) => mockDeleteDefault typeName m k
  | none => mockDeleteDefault typeName m k

/-- A custom (non-CRUD) verb on the mock whose generated return type is
Operation, i.e. a mutating verb returning only error (template lines
352-357): if the hook is set it fully replaces the call, otherwise the
method returns nil. -/
def mockCustomOp {α : Type} (hook : Option (MockState α → Key → Option GoError))
    (m : MockState α) (k : Key) : Option GoError :=
  match hook with
  | some f => f m k
  | none => none

/-- A custom (non-CRUD) verb on the mock whose generated return type is a
plain value (template lines 358-362): if the hook is set it fully replaces
the call, otherwise the method fails with the fmt.Errorf value naming the
missing hook. -/
def mockCustomPlain {α β : Type} (hookName : String)
    (hook : Option (MockState α → Key → Option β × Option GoError))
    (m : MockState α) (k : Key) : Option β × Option GoError :=
  match hook with
  | some f => f m k
  | none => (none, some (.errorString (hookName ++ " must be set")))

/-! ### The generated real adapter (genTypes template, gen/main.go)

The GCEWrapType methods (template lines 365-496) all follow the same
straight-line protocol: build a RateLimitKey, call RateLimiter.Accept with
it as a bare statement, resolve the project through the ProjectRouter,
issue the versioned transport call, and for mutating calls hand the
returned Operation to WaitForCompletion.  The embedding keeps the external
collaborators as function parameters and additionally returns the list of
protocol events in program order, so that call order and discarded results
are provable facts rather than conventions.

Modelled from the spec (section 4.3): the RateLimiter interface is not
under src/; Accept may fail (Throttled) and is modelled as a function
returning an optional error.  The generated call sites invoke it as a Go
expression statement, so whatever it returns is discarded; the trace
records the call and its result.  Modelled from the spec (section 4.4):
the ProjectRouter is a function from version and service to a project ID.
The versioned transport calls and WaitForCompletion (section 4.5) are
likewise outside src/ and appear as opaque function parameters. -/

/-- RateLimitKey as built at every generated call site: operation name,
API version and target resource type. -/
structure RateLimitKey where
  Operation : String
  Version : String
  Target : String
deriving DecidableEq

/-- One step of the generated adapter protocol, in program order:
an Accept call on the rate limiter together with the result the limiter
returned, the dispatch of the underlying versioned transport call
(recording the Name field of the dispatched body object, when there is
one), and a WaitForCompletion call with its outcome. -/
inductive Event where
  | acceptCall (rk : RateLimitKey) (result : Option GoError)
  | dispatchCall (operation : String) (projectID : String) (objName : Option String)
  | waitCall (result : Option GoError)
deriving DecidableEq

/-- A transport object as the adapter sees it: the core reads and writes
only its Name field (spec section 6, object model); the rest is opaque. -/
structure Obj (β : Type) where
  Name : String
  payload : β
deriving DecidableEq

/-- GCEWrapType Get (template lines 370-389). -/
def gceGet {α : Type} (version service object : String)
    (accept : RateLimitKey → Option GoError)
    (router : String → String → String)
    (doGet : String → Key → Option α × Option GoError)
    (k : Key) : (Option α × Option GoError) × List Event :=
  let rk : RateLimitKey := ⟨"Get", version, object⟩
  let ar := accept rk
  let projectID := router version service
  (doGet projectID k,
    [.acceptCall rk ar, .dispatchCall "Get" projectID none])

/-- GCEWrapType List (template lines 391-418).  The page-by-page
aggregation of call.Pages happens inside the transport; doList returns the
concatenated items or the first page error. -/
def gceList {α : Type} (version service object : String)
    (accept : RateLimitKey → Option GoError)
    (router : String → String → String)
    (doList : String → List α × Option GoError) :
    (List α × Option GoError) × List Event :=
  let rk : RateLimitKey := ⟨"List", version, object⟩
  let ar := accept rk
  let projectID := router version service
  (doList projectID,
    [.acceptCall rk ar, .dispatchCall "List" projectID none])

/-- GCEWrapType Insert (template lines 420-444): the body object's Name is
set from the key before dispatch; a transport error returns immediately,
otherwise the Operation goes to WaitForCompletion and its outcome is the
result. -/
def gceInsert {β ω : Type} (version service object : String)
    (accept : RateLimitKey → Option GoError)
    (router : String → String → String)
    (doInsert : String → Obj β → Option ω × Option GoError)
    (waitForCompletion : Option ω → Option GoError)
    (k : Key) (obj : Obj β) : Option GoError × List Event :=
  let rk : RateLimitKey := ⟨"Insert", version, object⟩
  let ar := accept rk
  let projectID := router version service
  let obj := { obj with Name := k.Name }
  match doInsert projectID obj with
  | (_, some e) =>
    (some e, [.acceptCall rk ar, .dispatchCall "Insert" projectID (some obj.Name)])
  | (op, none) =>
    let wr := waitForCompletion op
    (wr, [.acceptCall rk ar, .dispatchCall "Insert" projectID (some obj.Name),
      .waitCall wr])

/-- GCEWrapType Delete (template lines 446-469): same completion
discipline as Insert, with no body object. -/
def gceDelete {ω : Type} (version service object : String)
    (accept : RateLimitKey → Option GoError)
    (router : String → String → String)
    (doDelete : String → Key → Option ω × Option GoError)
    (waitForCompletion : Option ω → Option GoError)
    (k : Key) : Option GoError × List Event :=
  let rk : RateLimitKey := ⟨"Delete", version, object⟩
  let ar := accept rk
  let projectID := router version service
  match doDelete projectID k with
  | (_, some e) =>
    (some e, [.acceptCall rk ar, .dispatchCall "Delete" projectID none])
  | (op, none) =>
    let wr := waitForCompletion op
    (wr, [.acceptCall rk ar, .dispatchCall "Delete" projectID none, .waitCall wr])

/-- A custom verb on the real adapter returning a plain value (template
lines 471-496, non-Operation branch): Accept, route, dispatch, return the
call result. -/
def gceCustomPlain {α : Type} (name version service object : String)
    (accept : RateLimitKey → Option GoError)
    (router : String → String → String)
    (doCall : String → Key → Option α × Option GoError)
    (k : Key) : (Option α × Option GoError) × List Event :=
  let rk : RateLimitKey := ⟨name, version, object⟩
  let ar := accept rk
  let projectID := router version service
  (doCall projectID k,
    [.acceptCall rk ar, .dispatchCall name projectID none])

/-- A custom verb on the real adapter returning an Operation (template
lines 471-496, Operation branch): Accept, route, dispatch, then the same
completion discipline as Insert and Delete. -/
def gceCustomOp {ω : Type} (name version service object : String)
    (accept : RateLimitKey → Option GoError)
    (router : String → String → String)
    (doCall : String → Key → Option ω × Option GoError)
    (waitForCompletion : Option ω → Option GoError)
    (k : Key) : Option GoError × List Event :=
  let rk : RateLimitKey := ⟨name, version, object⟩
  let ar := accept rk
  let projectID := router version service
  match doCall projectID k with
  | (_, some e) =>
    (some e, [.acceptCall rk ar, .dispatchCall name projectID none])
  | (op, none) =>
    let wr := waitForCompletion op
    (wr, [.acceptCall rk ar, .dispatchCall name projectID none, .waitCall wr])

/-! ### Claim theorems for the adapters -/

/-- Counterexample to claim C3: a custom verb whose return type is
Operation (a mutating custom verb) with no hook registered does NOT fail;
the generated mock method returns nil (template lines 353-357), silently
succeeding.  Shown at a concrete mock state and key. -/
theorem mockCustomOp_no_hook_silently_succeeds :
    @mockCustomOp Unit none (NewMock Unit) (GlobalKey "k") = none := rfl

/-- Claim C3 as amended: on a mock, a custom verb returning a plain value
fails with the fmt.Errorf value naming the missing hook when no hook is
registered, for every state and key; a custom verb returning an Operation
(mutating verb) instead returns nil, silently succeeding. -/
theorem mockCustom_without_hook (α β : Type) (hookName : String)
    (m : MockState α) (k : Key) :
    @mockCustomPlain α β hookName none m k =
      (none, some (.errorString (hookName ++ " must be set"))) ∧
    @mockCustomOp α none m k = none :=
  ⟨rfl, rfl⟩

/-- Counterexample to claim C4: the generated adapters invoke
RateLimiter.Accept as a bare Go statement (template lines 377, 400, 427,
453, 478), so its result is discarded.  With a rate limiter that always
fails with a throttling error and a transport Get that succeeds, the
adapter returns the transport's success (the throttle failure is not
returned to the caller) and the underlying call is still dispatched. -/
theorem gceGet_throttle_not_propagated :
    (@gceGet Unit "ga" "Addresses" "Addresses"
        (fun _ => some (.errorString "throttled")) (fun _ _ => "proj")
        (fun _ _ => (some (), none)) (GlobalKey "a")).1 = (some (), none) ∧
    Event.dispatchCall "Get" "proj" none ∈
      (@gceGet Unit "ga" "Addresses" "Addresses"
        (fun _ => some (.errorString "throttled")) (fun _ _ => "proj")
        (fun _ _ => (some (), none)) (GlobalKey "a")).2 :=
  ⟨rfl, by simp [gceGet]⟩

/-- Claim C4 as amended: every generated operation (Get, List, Insert,
Delete and both kinds of custom verb) calls the rate limiter's Accept with
the RateLimitKey naming the operation, API version and resource type, as
the first step of the protocol and before the underlying call is
dispatched; but the result of Accept is discarded: the operation's outcome
is identical under any two rate limiters, so an Accept failure is neither
returned to the caller nor does it prevent the underlying call. -/
theorem gce_accept_first_result_discarded
    (α β ω : Type) (name version service object : String)
    (accept accept2 : RateLimitKey → Option GoError)
    (router : String → String → String)
    (doGet : String → Key → Option α × Option GoError)
    (doList : String → List α × Option GoError)
    (doInsert : String → Obj β → Option ω × Option GoError)
    (doDelete : String → Key → Option ω × Option GoError)
    (doCall : String → Key → Option α × Option GoError)
    (doCallOp : String → Key → Option ω × Option GoError)
    (wait : Option ω → Option GoError) (k : Key) (obj : Obj β) :
    ((gceGet version service object accept router doGet k).2.head? =
        some (.acceptCall ⟨"Get", version, object⟩ (accept ⟨"Get", version, object⟩)) ∧
      Event.dispatchCall "Get" (router version service) none ∈
        (gceGet version service object accept router doGet k).2 ∧
      (gceGet version service object accept router doGet k).1 =
        (gceGet version service object accept2 router doGet k).1) ∧
    ((gceList version service object accept router doList).2.head? =
        some (.acceptCall ⟨"List", version, object⟩ (accept ⟨"List", version, object⟩)) ∧
      Event.dispatchCall "List" (router version service) none ∈
        (gceList version service object accept router doList).2 ∧
      (gceList version service object accept router doList).1 =
        (gceList version service object accept2 router doList).1) ∧
    ((gceInsert version service object accept router doInsert wait k obj).2.head? =
        some (.acceptCall ⟨"Insert", version, object⟩ (accept ⟨"Insert", version, object⟩)) ∧
      Event.dispatchCall "Insert" (router version service) (some k.Name) ∈
        (gceInsert version service object accept router doInsert wait k obj).2 ∧
      (gceInsert version service object accept router doInsert wait k obj).1 =
        (gceInsert version service object accept2 router doInsert wait k obj).1) ∧
    ((gceDelete version service object accept router doDelete wait k).2.head? =
        some (.acceptCall ⟨"Delete", version, object⟩ (accept ⟨"Delete", version, object⟩)) ∧
      Event.dispatchCall "Delete" (router version service) none ∈
        (gceDelete version service object accept router doDelete wait k).2 ∧
      (gceDelete version service object accept router doDelete wait k).1 =
        (gceDelete version service object accept2 router doDelete wait k).1) ∧
    ((gceCustomPlain name version service object accept router doCall k).2.head? =
        some (.acceptCall ⟨name, version, object⟩ (accept ⟨name, version, object⟩)) ∧
      Event.dispatchCall name (router version service) none ∈
        (gceCustomPlain name version service object accept router doCall k).2 ∧
      (gceCustomPlain name version service object accept router doCall k).1 =
        (gceCustomPlain name version service object accept2 router doCall k).1) ∧
    ((gceCustomOp name version service object accept router doCallOp wait k).2.head? =
        some (.acceptCall ⟨name, version, object⟩ (accept ⟨name, version, object⟩)) ∧
      Event.dispatchCall name (router version service) none ∈
        (gceCustomOp name version service object accept router doCallOp wait k).2 ∧
      (gceCustomOp name version service object accept router doCallOp wait k).1 =
        (gceCustomOp name version service object accept2 router doCallOp wait k).1) := by
  refine ⟨⟨rfl, by simp [gceGet], rfl⟩, ⟨rfl, by simp [gceList], rfl⟩, ?_, ?_,
    ⟨rfl, by simp [gceCustomPlain], rfl⟩, ?_⟩
  · refine ⟨?_, ?_, ?_⟩ <;>
      (cases hdo : doInsert (router version service) { obj with Name := k.Name } with
       | mk op e => cases e <;> simp [gceInsert, hdo])
  · refine ⟨?_, ?_, ?_⟩ <;>
      (cases hdo : doDelete (router version service) k with
       | mk op e => cases e <;> simp [gceDelete, hdo])
  · refine ⟨?_, ?_, ?_⟩ <;>
      (cases hdo : doCallOp (router version service) k with
       | mk op e => cases e <;> simp [gceCustomOp, hdo])

/-- Claim C5: for the generated real adapter, Insert sets the body
object's Name from the Key before dispatch (the dispatched name is the
key's name); when the underlying call fails the error is returned at once
and no completion wait happens; when it succeeds, the returned Operation
goes to WaitForCompletion and Insert's result is exactly the waiter's
outcome.  Delete follows the same discipline. -/
theorem gceInsert_delete_completion
    (β ω : Type) (version service object : String)
    (accept : RateLimitKey → Option GoError)
    (router : String → String → String)
    (doInsert : String → Obj β → Option ω × Option GoError)
    (doDelete : String → Key → Option ω × Option GoError)
    (wait : Option ω → Option GoError) (k : Key) (obj : Obj β) :
    (Event.dispatchCall "Insert" (router version service) (some k.Name) ∈
      (gceInsert version service object accept router doInsert wait k obj).2) ∧
    (∀ op e, doInsert (router version service) { obj with Name := k.Name } = (op, some e) →
      gceInsert version service object accept router doInsert wait k obj =
        (some e,
          [.acceptCall ⟨"Insert", version, object⟩ (accept ⟨"Insert", version, object⟩),
           .dispatchCall "Insert" (router version service) (some k.Name)])) ∧
    (∀ op, doInsert (router version service) { obj with Name := k.Name } = (op, none) →
      gceInsert version service object accept router doInsert wait k obj =
        (wait op,
          [.acceptCall ⟨"Insert", version, object⟩ (accept ⟨"Insert", version, object⟩),
           .dispatchCall "Insert" (router version service) (some k.Name),
           .waitCall (wait op)])) ∧
    (∀ op e, doDelete (router version service) k = (op, some e) →
      gceDelete version service object accept router doDelete wait k =
        (some e,
          [.acceptCall ⟨"Delete", version, object⟩ (accept ⟨"Delete", version, object⟩),
           .dispatchCall "Delete" (router version service) none])) ∧
    (∀ op, doDelete (router version service) k = (op, none) →
      gceDelete version service object accept router doDelete wait k =
        (wait op,
          [.acceptCall ⟨"Delete", version, object⟩ (accept ⟨"Delete", version, object⟩),
           .dispatchCall "Delete" (router version service) none,
           .waitCall (wait op)])) := by
  refine ⟨?_, ?_, ?_, ?_, ?_⟩
  · cases hdo : doInsert (router version service) { obj with Name := k.Name } with
    | mk op e => cases e <;> simp [gceInsert, hdo]
  · intro op e hdo; simp [gceInsert, hdo]
  · intro op hdo; simp [gceInsert, hdo]
  · intro op e hdo; simp [gceDelete, hdo]
  · intro op hdo; simp [gceDelete, hdo]

/-- Witness for C5: a concrete successful insert; the result is the
waiter's outcome and the dispatched object carries the key's name. -/
theorem gceInsert_delete_completion_witness :
    @gceInsert Unit Unit "ga" "Addresses" "Address"
        (fun _ => none) (fun _ _ => "proj")
        (fun _ _ => (some (), none)) (fun _ => none)
        (GlobalKey "n") ⟨"x", ()⟩ =
      (none,
        [.acceptCall ⟨"Insert", "ga", "Address"⟩ none,
         .dispatchCall "Insert" "proj" (some "n"),
         .waitCall none]) :=
  (gceInsert_delete_completion Unit Unit "ga" "Addresses" "Address"
    (fun _ => none) (fun _ _ => "proj") (fun _ _ => (some (), none))
    (fun _ _ => (some (), none)) (fun _ => none)
    (GlobalKey "n") ⟨"x", ()⟩).2.2.1 (some ()) rfl

/-- Claim C6: with no insert hook and no injected insert error for the
key, inserting under a fresh key succeeds, and a second insert with the
same key returns the AlreadyExists googleapi error carrying HTTP status
409 and a message embedding the mock type name and the key, leaving the
entire mock state exactly as it was after the first insert. -/
theorem mockInsert_alreadyExists
    (α : Type) (typeName : String) (hooks : MockHooks α) (m : MockState α)
    (k : Key) (obj1 obj2 : α)
    (hhook : hooks.InsertHook = none)
    (herr : mapLookup m.InsertError k = none)
    (habsent : mapLookup m.Objects k = none) :
    (mockInsert typeName hooks m k obj1).2 = none ∧
    mockInsert typeName hooks (mockInsert typeName hooks m k obj1).1 k obj2 =
      ((mockInsert typeName hooks m k obj1).1,
        some (.googleapi 409 (typeName ++ " " ++ keyFmt k ++ " exists"))) := by
  have h1 : mockInsert typeName hooks m k obj1 =
      ({ m with Objects := mapSet m.Objects k obj1 }, none) := by
    simp [mockInsert, hhook, mockInsertDefault, herr, habsent]
  refine ⟨by rw [h1], ?_⟩
  rw [h1]
  simp [mockInsert, hhook, mockInsertDefault, herr, mapLookup_mapSet_self,
    existsErr]

/-- Witness for C6: double insert at a concrete key on a fresh mock. -/
theorem mockInsert_alreadyExists_witness :
    (mockInsert "MockAddresses" (NoHooks Nat) (NewMock Nat) (GlobalKey "addr") 1).2 = none ∧
    mockInsert "MockAddresses" (NoHooks Nat)
        (mockInsert "MockAddresses" (NoHooks Nat) (NewMock Nat) (GlobalKey "addr") 1).1
        (GlobalKey "addr") 2 =
      ((mockInsert "MockAddresses" (NoHooks Nat) (NewMock Nat) (GlobalKey "addr") 1).1,
        some (.googleapi 409
          ("MockAddresses" ++ " " ++ keyFmt (GlobalKey "addr") ++ " exists"))) :=
  mockInsert_alreadyExists Nat "MockAddresses" (NoHooks Nat) (NewMock Nat)
    (GlobalKey "addr") 1 2 rfl rfl rfl

/-- Claim C7: with no hooks and no injected errors for the keys involved,
inserting an object under a fresh key and then getting that key returns
exactly the inserted object with no error; deleting a present key succeeds
and a subsequent get of that key returns the NotFound googleapi error with
HTTP status 404. -/
theorem mock_insert_get_delete_get
    (α : Type) (typeName : String) (m m2 : MockState α) (k k2 : Key) (obj : α)
    (h1 : mapLookup m.InsertError k = none)
    (h2 : mapLookup m.GetError k = none)
    (h3 : mapLookup m.Objects k = none)
    (h4 : mapLookup m2.DeleteError k2 = none)
    (h5 : mapLookup m2.GetError k2 = none)
    (h6 : (mapLookup m2.Objects k2).isSome = true) :
    mockGet typeName (NoHooks α) (mockInsert typeName (NoHooks α) m k obj).1 k =
      (some obj, none) ∧
    (mockDelete typeName (NoHooks α) m2 k2).2 = none ∧
    mockGet typeName (NoHooks α) (mockDelete typeName (NoHooks α) m2 k2).1 k2 =
      (none, some (.googleapi 404 (typeName ++ " " ++ keyFmt k2 ++ " not found"))) := by
  have hins : mockInsert typeName (NoHooks α) m k obj =
      ({ m with Objects := mapSet m.Objects k obj }, none) := by
    simp [mockInsert, NoHooks, mockInsertDefault, h1, h3]
  have hdel : mockDelete typeName (NoHooks α) m2 k2 =
      ({ m2 with Objects := mapErase m2.Objects k2 }, none) := by
    simp [mockDelete, NoHooks, mockDeleteDefault, h4, h6]
  refine ⟨?_, by rw [hdel], ?_⟩
  · rw [hins]
    simp [mockGet, NoHooks, mockGetDefault, h2, mapLookup_mapSet_self]
  · rw [hdel]
    simp [mockGet, NoHooks, mockGetDefault, h5, mapLookup_mapErase_self,
      notFoundErr]

/-- Witness for C7: concrete insert-then-get and delete-then-get runs. -/
theorem mock_insert_get_delete_get_witness :
    mockGet "MockAddresses" (NoHooks Nat)
        (mockInsert "MockAddresses" (NoHooks Nat) (NewMock Nat) (GlobalKey "a") 7).1
        (GlobalKey "a") = (some 7, none) ∧
    (mockDelete "MockAddresses" (NoHooks Nat)
        ⟨[(GlobalKey "b", 5)], [], none, [], []⟩ (GlobalKey "b")).2 = none ∧
    mockGet "MockAddresses" (NoHooks Nat)
        (mockDelete "MockAddresses" (NoHooks Nat)
          ⟨[(GlobalKey "b", 5)], [], none, [], []⟩ (GlobalKey "b")).1
        (GlobalKey "b") =
      (none, some (.googleapi 404
        ("MockAddresses" ++ " " ++ keyFmt (GlobalKey "b") ++ " not found"))) :=
  mock_insert_get_delete_get Nat "MockAddresses" (NewMock Nat)
    ⟨[(GlobalKey "b", 5)], [], none, [], []⟩ (GlobalKey "a") (GlobalKey "b") 7
    rfl rfl rfl rfl rfl (by simp [mapLookup])

/-- Claim C8: every mock operation gives a registered hook first refusal.
If the hook intercepts (returns true), the operation returns exactly the
hook's result — the state is left untouched and neither the store nor the
injected-error maps influence the outcome, whatever they contain; if the
hook declines (returns false), the operation behaves exactly as with no
hook set. -/
theorem mock_hooks_first_refusal (α : Type) (loc : Locality) (typeName : String) :
    (∀ (hooks : MockHooks α) f (m : MockState α) k o e, hooks.GetHook = some f →
      f m k = (true, o, e) → mockGet typeName hooks m k = (o, e)) ∧
    (∀ (hooks : MockHooks α) f (m : MockState α) k o e, hooks.GetHook = some f →
      f m k = (false, o, e) →
      mockGet typeName hooks m k = mockGet typeName (NoHooks α) m k) ∧
    (∀ (hooks : MockHooks α) f (m : MockState α) scope objs e,
      hooks.ListHook = some f → f m = (true, objs, e) →
      mockList loc hooks m scope = (objs, e)) ∧
    (∀ (hooks : MockHooks α) f (m : MockState α) scope objs e,
      hooks.ListHook = some f → f m = (false, objs, e) →
      mockList loc hooks m scope = mockList loc (NoHooks α) m scope) ∧
    (∀ (hooks : MockHooks α) f (m : MockState α) k obj e,
      hooks.InsertHook = some f → f m k obj = (true, e) →
      mockInsert typeName hooks m k obj = (m, e)) ∧
    (∀ (hooks : MockHooks α) f (m : MockState α) k obj e,
      hooks.InsertHook = some f → f m k obj = (false, e) →
      mockInsert typeName hooks m k obj = mockInsert typeName (NoHooks α) m k obj) ∧
    (∀ (hooks : MockHooks α) f (m : MockState α) k e,
      hooks.DeleteHook = some f → f m k = (true, e) →
      mockDelete typeName hooks m k = (m, e)) ∧
    (∀ (hooks : MockHooks α) f (m : MockState α) k e,
      hooks.DeleteHook = some f → f m k = (false, e) →
      mockDelete typeName hooks m k = mockDelete typeName (NoHooks α) m k) := by
  refine ⟨?_, ?_, ?_, ?_, ?_, ?_, ?_, ?_⟩ <;>
    (intro hooks f m
     intros
     simp_all [mockGet, mockList, mockInsert, mockDelete, NoHooks])

/-- Witness for C8: a hook that intercepts a Get for a key missing from an
empty store makes the mock return the hook's success, where default logic
would have returned NotFound. -/
theorem mock_hooks_first_refusal_witness :
    mockGet "MockAddresses"
        ⟨some (fun _ _ => (true, some 7, none)), none, none, none⟩
        (NewMock Nat) (GlobalKey "g") = (some 7, none) :=
  (mock_hooks_first_refusal Nat Locality.global "MockAddresses").1
    ⟨some (fun _ _ => (true, some 7, none)), none, none, none⟩
    (fun _ _ => (true, some 7, none)) (NewMock Nat) (GlobalKey "g")
    (some 7) none rfl rfl

/-- Claim C10: unlike the real adapter's Insert (which overwrites the body
object's Name with the key's name before dispatch, template line 429), the
mock's Insert stores the caller's object exactly as given (template line
322): no field is modified, so an object whose Name differs from the key's
name is stored and returned by Get with the mismatched Name intact. -/
theorem mockInsert_stores_object_as_given
    (β : Type) (typeName : String) (m : MockState (Obj β)) (k : Key)
    (obj : Obj β)
    (hname : obj.Name ≠ k.Name)
    (h1 : mapLookup m.InsertError k = none)
    (h2 : mapLookup m.GetError k = none)
    (h3 : mapLookup m.Objects k = none) :
    mapLookup (mockInsert typeName (NoHooks (Obj β)) m k obj).1.Objects k =
      some obj ∧
    mockGet typeName (NoHooks (Obj β))
        (mockInsert typeName (NoHooks (Obj β)) m k obj).1 k = (some obj, none) ∧
    obj.Name ≠ k.Name := by
  have hins : mockInsert typeName (NoHooks (Obj β)) m k obj =
      ({ m with Objects := mapSet m.Objects k obj }, none) := by
    simp [mockInsert, NoHooks, mockInsertDefault, h1, h3]
  refine ⟨?_, ?_, hname⟩
  · rw [hins]
    exact mapLookup_mapSet_self m.Objects k obj
  · rw [hins]
    simp [mockGet, NoHooks, mockGetDefault, h2, mapLookup_mapSet_self]

/-- Witness for C10: an object named differently from its key survives a
mock insert-then-get with its own name. -/
theorem mockInsert_stores_object_as_given_witness :
    mapLookup (mockInsert "MockAddresses" (NoHooks (Obj Unit))
        (NewMock (Obj Unit)) (GlobalKey "key") ⟨"other", ()⟩).1.Objects
        (GlobalKey "key") = some ⟨"other", ()⟩ ∧
    mockGet "MockAddresses" (NoHooks (Obj Unit))
        (mockInsert "MockAddresses" (NoHooks (Obj Unit))
          (NewMock (Obj Unit)) (GlobalKey "key") ⟨"other", ()⟩).1
        (GlobalKey "key") = (some ⟨"other", ()⟩, none) ∧
    Obj.Name ⟨"other", ()⟩ ≠ Key.Name (GlobalKey "key") :=
  mockInsert_stores_object_as_given Unit "MockAddresses" (NewMock (Obj Unit))
    (GlobalKey "key") ⟨"other", ()⟩ (by decide) rfl rfl rfl
